import Mathlib

/-!
# Verification of the API-key crypto helper of apple-vision-quest

Shallow embedding of `src/lib/crypto.ts` and the `useAPIKeys` hook.
Browser platform primitives (Web Crypto `crypto.subtle`, `btoa`/`atob`,
`TextEncoder`/`TextDecoder`, `crypto.getRandomValues`) are modelled as
follows:

* `btoa`/`atob`: executable base64 encoder and forgiving-base64 decoder,
  following the WHATWG specification that browsers implement;
* `TextEncoder.encode`: the standard UTF-8 encoding, implemented here;
* `TextDecoder.decode`: an executable UTF-8 decoder (never throws);
* `crypto.getRandomValues`: reads from an ambient byte stream `rng`,
  passed explicitly so that "fresh randomness" is visible in statements;
* `crypto.subtle` PBKDF2 / AES-GCM: an abstract structure `SubtleCrypto`
  whose fields carry the documented contract of an authenticated-encryption
  scheme; theorems quantify over any such implementation, and witnesses use
  a small concrete instance `toyCrypto` that satisfies the contract.
-/

namespace AppleVisionQuest

/-! ## Base64 (`btoa` / `atob`) -/

/-- The base64 alphabet, as a list of characters; index `n` holds the
character for the sextet value `n`. -/
def b64Alphabet : List Char :=
  "ABCDEFGHIJKLMNOPQRSTUVWXYZabcdefghijklmnopqrstuvwxyz0123456789+/".toList

/-- The character for a sextet value (`n < 64`). -/
def sextetToChar (n : Nat) : Char := b64Alphabet.getD n '*'

/-- The sextet value of a base64 alphabet character, `none` for a
character outside the alphabet. -/
def charToSextet (c : Char) : Option Nat :=
  if 'A' ≤ c ∧ c ≤ 'Z' then some (c.toNat - 'A'.toNat)
  else if 'a' ≤ c ∧ c ≤ 'z' then some (c.toNat - 'a'.toNat + 26)
  else if '0' ≤ c ∧ c ≤ '9' then some (c.toNat - '0'.toNat + 52)
  else if c = '+' then some 62
  else if c = '/' then some 63
  else none

/-- Sextet stream of a byte list: 3 bytes become 4 sextets, a final group
of 1 or 2 bytes becomes 2 or 3 sextets with the low bits zero-padded. -/
def toSextets : List Nat → List Nat
  | [] => []
  | [b0] => [b0 / 4, b0 % 4 * 16]
  | [b0, b1] => [b0 / 4, b0 % 4 * 16 + b1 / 16, b1 % 16 * 4]
  | b0 :: b1 :: b2 :: rest =>
      b0 / 4 :: (b0 % 4 * 16 + b1 / 16) :: (b1 % 16 * 4 + b2 / 64) :: b2 % 64 ::
        toSextets rest

/-- Number of `=` padding characters base64 appends for an input of `n`
bytes. -/
def padLen (n : Nat) : Nat :=
  match n % 3 with
  | 1 => 2
  | 2 => 1
  | _ => 0

/-- Model of `btoa(String.fromCharCode(...bytes))`: base64 encoding of a
byte list, producing the encoded string. -/
def btoaBytes (bytes : List Nat) : String :=
  ⟨(toSextets bytes).map sextetToChar ++ List.replicate (padLen bytes.length) '='⟩

/-- Inverse of `toSextets`: 4 sextets become 3 bytes, a final group of 2
or 3 sextets becomes 1 or 2 bytes (zero-padding bits discarded, as the
WHATWG forgiving-base64 decoder does). -/
def fromSextets : List Nat → List Nat
  | s0 :: s1 :: s2 :: s3 :: rest =>
      (s0 * 4 + s1 / 16) :: (s1 % 16 * 16 + s2 / 4) :: (s2 % 4 * 64 + s3) ::
        fromSextets rest
  | [s0, s1] => [s0 * 4 + s1 / 16]
  | [s0, s1, s2] => [s0 * 4 + s1 / 16, s1 % 16 * 16 + s2 / 4]
  | _ => []

/-- ASCII whitespace, which the forgiving-base64 decoder strips. -/
def isB64Ws (c : Char) : Bool :=
  c.toNat = 9 ∨ c.toNat = 10 ∨ c.toNat = 12 ∨ c.toNat = 13 ∨ c.toNat = 32

/-- Strip one or two trailing `=` characters. -/
def stripPad (cs : List Char) : List Char :=
  if 2 ≤ cs.length ∧ cs.drop (cs.length - 2) = ['=', '='] then
    cs.take (cs.length - 2)
  else if 1 ≤ cs.length ∧ cs.drop (cs.length - 1) = ['='] then
    cs.take (cs.length - 1)
  else cs

/-- Padding-stripping stage of the forgiving-base64 decoder: trailing `=`
is removed only when the whitespace-free input length is a multiple of 4. -/
def atobStrip (cs : List Char) : List Char :=
  if cs.length % 4 = 0 then stripPad cs else cs

/-- Core of the forgiving-base64 decoder, after whitespace and padding
removal: reject a length `≡ 1 (mod 4)` or a character outside the
alphabet, otherwise decode the sextets. -/
def atobCore (cs : List Char) : Option (List Nat) :=
  if cs.length % 4 = 1 then none
  else (cs.mapM charToSextet).map fromSextets

/-- Model of `new Uint8Array(atob(s).split('').map(c => c.charCodeAt(0)))`:
the WHATWG forgiving-base64 decoder, returning the byte list, or `none`
where `atob` throws. -/
def atobBytes (s : String) : Option (List Nat) :=
  atobCore (atobStrip (s.toList.filter (fun c => !isB64Ws c)))

/-! ## UTF-8 (`TextEncoder` / `TextDecoder`) -/

/-- Standard UTF-8 encoding of one character (model of what
`TextEncoder.encode` does per code point). -/
def utf8EncodeChar (c : Char) : List Nat :=
  let n := c.toNat
  if n < 0x80 then [n]
  else if n < 0x800 then [0xC0 + n / 64, 0x80 + n % 64]
  else if n < 0x10000 then
    [0xE0 + n / 4096, 0x80 + n / 64 % 64, 0x80 + n % 64]
  else
    [0xF0 + n / 262144, 0x80 + n / 4096 % 64, 0x80 + n / 64 % 64,
      0x80 + n % 64]

/-- Model of `new TextEncoder().encode(s)`: the UTF-8 bytes of `s`. -/
def utf8Encode (s : String) : List Nat :=
  (s.data.map utf8EncodeChar).flatten

/-- U+FFFD, emitted by `TextDecoder` for invalid input. -/
def replacementChar : Char := Char.ofNat 0xFFFD

/-- Model of `new TextDecoder().decode`: UTF-8 decoding with replacement
characters on invalid sequences; it never throws. No claim depends on its
fine structure, only on it being a function of the byte list. -/
def utf8DecodeList : List Nat → List Char
  | [] => []
  | b :: rest =>
    if b < 0x80 then Char.ofNat b :: utf8DecodeList rest
    else if 0xC2 ≤ b ∧ b ≤ 0xDF then
      match rest with
      | b1 :: rest2 =>
        if 0x80 ≤ b1 ∧ b1 ≤ 0xBF then
          Char.ofNat ((b - 0xC0) * 64 + (b1 - 0x80)) :: utf8DecodeList rest2
        else replacementChar :: utf8DecodeList (b1 :: rest2)
      | [] => [replacementChar]
    else if 0xE0 ≤ b ∧ b ≤ 0xEF then
      match rest with
      | b1 :: b2 :: rest2 =>
        if 0x80 ≤ b1 ∧ b1 ≤ 0xBF ∧ 0x80 ≤ b2 ∧ b2 ≤ 0xBF then
          Char.ofNat ((b - 0xE0) * 4096 + (b1 - 0x80) * 64 + (b2 - 0x80)) ::
            utf8DecodeList rest2
        else replacementChar :: utf8DecodeList (b1 :: b2 :: rest2)
      | _ => [replacementChar]
    else if 0xF0 ≤ b ∧ b ≤ 0xF4 then
      match rest with
      | b1 :: b2 :: b3 :: rest2 =>
        if 0x80 ≤ b1 ∧ b1 ≤ 0xBF ∧ 0x80 ≤ b2 ∧ b2 ≤ 0xBF ∧
            0x80 ≤ b3 ∧ b3 ≤ 0xBF then
          Char.ofNat ((b - 0xF0) * 262144 + (b1 - 0x80) * 4096 +
              (b2 - 0x80) * 64 + (b3 - 0x80)) :: utf8DecodeList rest2
        else replacementChar :: utf8DecodeList (b1 :: b2 :: b3 :: rest2)
      | _ => [replacementChar]
    else replacementChar :: utf8DecodeList rest
termination_by bs => bs.length
decreasing_by all_goals (simp only [List.length_cons]; omega)

def utf8Decode (bs : List Nat) : String := ⟨utf8DecodeList bs⟩

/-! ## Constants of `crypto.ts` -/

def ENCRYPTION_ALGORITHM : String := "AES-GCM"

def KEY_LENGTH : Nat := 256

def IV_LENGTH : Nat := 12

def SALT_LENGTH : Nat := 16

/-- The `EncryptedData` interface of `crypto.ts`: all three fields are
base64 strings. -/
structure EncryptedData where
  encrypted : String
  iv : String
  salt : String
deriving DecidableEq, Repr

/-! ## Platform primitives -/

/-- Model of `crypto.getRandomValues(new Uint8Array(n))`: `n` bytes read
from the ambient random stream `rng` starting at position `start`; the
`Uint8Array` element type is reflected by reducing each value mod 256. -/
def getRandomValues (rng : Nat → Nat) (start n : Nat) : List Nat :=
  (List.range n).map (fun i => rng (start + i) % 256)

/-- Abstract model of the `crypto.subtle` primitives the source calls,
over an abstract type `K` of `CryptoKey` handles. The fields after the
operations are the documented contract of PBKDF2 + AES-GCM as an
authenticated-encryption scheme:

* `gcm_roundtrip`: decrypting a genuine ciphertext under its key and IV
  returns the plaintext;
* `gcm_auth`: authentication — decryption succeeds only on the genuine
  ciphertext of the returned plaintext under that key and IV;
* `gcm_bytes`: ciphertexts of byte lists are byte lists. -/
structure SubtleCrypto (K : Type) where
  pbkdf2Sha256 : List Nat → List Nat → Nat → Nat → K
  gcmEncrypt : K → List Nat → List Nat → List Nat
  gcmDecrypt : K → List Nat → List Nat → Option (List Nat)
  gcm_roundtrip : ∀ k iv m, gcmDecrypt k iv (gcmEncrypt k iv m) = some m
  gcm_auth : ∀ k iv c m, gcmDecrypt k iv c = some m → gcmEncrypt k iv m = c
  gcm_bytes : ∀ k iv m, (∀ x ∈ m, x < 256) →
    ∀ x ∈ gcmEncrypt k iv m, x < 256

/-! ## The functions of `crypto.ts` -/

/-- `deriveKey` (crypto.ts lines 18–39): PBKDF2 with SHA-256 over the
UTF-8 password bytes and the given salt, 100000 iterations, deriving an
AES key of `KEY_LENGTH` (= 256) bits. -/
def deriveKey {K : Type} (C : SubtleCrypto K) (password : String)
    (salt : List Nat) : K :=
  C.pbkdf2Sha256 (utf8Encode password) salt 100000 KEY_LENGTH

/-- `encryptData` (crypto.ts lines 44–62): fresh 16-byte salt, fresh
12-byte IV, AES-GCM encryption of the UTF-8 plaintext under the derived
key, all three components base64-encoded. -/
def encryptData {K : Type} (C : SubtleCrypto K) (rng : Nat → Nat)
    (data password : String) : EncryptedData :=
  let salt := getRandomValues rng 0 SALT_LENGTH
  let iv := getRandomValues rng SALT_LENGTH IV_LENGTH
  let key := deriveKey C password salt
  let encodedData := utf8Encode data
  let encrypted := C.gcmEncrypt key iv encodedData
  { encrypted := btoaBytes encrypted
    iv := btoaBytes iv
    salt := btoaBytes salt }

/-- The message of the error `decryptData` throws. -/
def decryptFailureMessage : String := "Failed to decrypt data. Check your password."

/-- `decryptData` (crypto.ts lines 67–85). The decoded salt is bound and
then never used: line 73 of the source passes `iv`, not `salt`, to
`deriveKey`, and the embedding mirrors that. Every failure inside the
`try` block becomes the single catch-all error. -/
def decryptData {K : Type} (C : SubtleCrypto K) (encryptedData : EncryptedData)
    (password : String) : Except String String :=
  match atobBytes encryptedData.salt, atobBytes encryptedData.iv,
      atobBytes encryptedData.encrypted with
  | some _salt, some iv, some encrypted =>
    let key := deriveKey C password iv
    match C.gcmDecrypt key iv encrypted with
    | some decrypted => .ok (utf8Decode decrypted)
    | none => .error decryptFailureMessage
  | _, _, _ => .error decryptFailureMessage

/-- Model of `byte.toString(16)`: lowercase hexadecimal digits of a
nonnegative integer. -/
def natToHex (n : Nat) : List Char := Nat.toDigits 16 n

/-- Model of `.padStart(2, '0')`. -/
def padStart2 (cs : List Char) : List Char :=
  List.replicate (2 - cs.length) '0' ++ cs

/-- `generateSecureId` (crypto.ts lines 90–94): 16 random bytes, each
rendered as two zero-padded lowercase hex digits, joined. -/
def generateSecureId (rng : Nat → Nat) : String :=
  ⟨((getRandomValues rng 0 16).map (fun byte => padStart2 (natToHex byte))).flatten⟩

/-! ## The `useAPIKeys` hook's data model and operations -/

/-- The provider union type of `api-keys.ts`. -/
inductive Provider
  | openai
  | anthropic
  | google
  | custom
deriving DecidableEq, Repr

/-- The optional `metadata` object `addAPIKey` builds. -/
structure APIKeyMetadata where
  model : Option String
  endpoint : Option String
  organization : Option String
deriving DecidableEq, Repr

/-- The `APIKey` interface of `api-keys.ts`. -/
structure APIKey where
  id : String
  name : String
  provider : Provider
  encryptedKey : EncryptedData
  isActive : Bool
  createdAt : String
  lastUsed : Option String
  usageCount : Nat
  metadata : Option APIKeyMetadata
deriving DecidableEq, Repr

/-- The `APIKeyFormData` interface of `api-keys.ts`. -/
structure APIKeyFormData where
  name : String
  provider : Provider
  apiKey : String
  model : Option String
  endpoint : Option String
  organization : Option String
deriving DecidableEq, Repr

/-- `addAPIKey` of `useAPIKeys` (hook lines 56–97), as a pure function of
its inputs: the stored list, the form data, the password, plus the
explicit ambient inputs the hook reads (randomness for `encryptData` and
`generateSecureId`, and `new Date().toISOString()` as `now`). Returns the
updated stored list and the new record. -/
def addAPIKey {K : Type} (C : SubtleCrypto K) (rngEnc rngId : Nat → Nat)
    (apiKeys : List APIKey) (formData : APIKeyFormData) (password : String)
    (now : String) : List APIKey × APIKey :=
  let encryptedKey := encryptData C rngEnc formData.apiKey password
  let newKey : APIKey :=
    { id := generateSecureId rngId
      name := formData.name
      provider := formData.provider
      encryptedKey := encryptedKey
      isActive := true
      createdAt := now
      lastUsed := none
      usageCount := 0
      metadata := some
        { model := formData.model
          endpoint := formData.endpoint
          organization := formData.organization } }
  (apiKeys ++ [newKey], newKey)

/-- `decryptAPIKey` of `useAPIKeys` (hook lines 100–131), as a pure
function: returns the decrypted key (or `none`, where the source returns
`null` from the catch block) together with the stored list after the
call (`saveApiKeys` runs only after a successful `decryptData`). -/
def decryptAPIKey {K : Type} (C : SubtleCrypto K) (apiKeys : List APIKey)
    (keyId password now : String) : Option String × List APIKey :=
  match apiKeys.find? (fun k => k.id == keyId) with
  | none => (none, apiKeys)
  | some key =>
    match decryptData C key.encryptedKey password with
    | .error _ => (none, apiKeys)
    | .ok decryptedKey =>
      (some decryptedKey,
        apiKeys.map (fun k =>
          if k.id == keyId then
            { k with lastUsed := some now, usageCount := k.usageCount + 1 }
          else k))

/-! ## A concrete `SubtleCrypto` instance for witnesses

`toyCrypto` is a small executable instance satisfying the contract: a key
handle records the PBKDF2 arguments, and a ciphertext is the plaintext
prefixed by a 2-byte tag of the key and IV, which decryption checks. -/

/-- Key handles of `toyCrypto`: the PBKDF2 arguments themselves. -/
structure ToyKey where
  passwordBytes : List Nat
  saltBytes : List Nat
  iterations : Nat
  lengthBits : Nat
deriving DecidableEq, Repr

/-- The 2-byte authentication tag of `toyCrypto`. -/
def toyTag (k : ToyKey) (iv : List Nat) : List Nat :=
  [k.saltBytes.length % 256, (k.passwordBytes.length + iv.length) % 256]

def toyCrypto : SubtleCrypto ToyKey where
  pbkdf2Sha256 := fun p s it len => ⟨p, s, it, len⟩
  gcmEncrypt := fun k iv m => toyTag k iv ++ m
  gcmDecrypt := fun k iv c =>
    if c.take 2 = toyTag k iv then some (c.drop 2) else none
  gcm_roundtrip := by
    intro k iv m
    dsimp only
    have h2 : (2 : Nat) = (toyTag k iv).length := rfl
    rw [h2, List.take_left, if_pos rfl, List.drop_left]
  gcm_auth := by
    intro k iv c m h
    dsimp only at h ⊢
    split at h
    · rename_i hc
      injection h with h
      subst h
      conv_rhs => rw [← List.take_append_drop 2 c]
      rw [hc]
    · exact absurd h (by simp)
  gcm_bytes := by
    intro k iv m hm x hx
    rcases List.mem_append.mp hx with h | h
    · simp only [toyTag, List.mem_cons, List.not_mem_nil, or_false] at h
      rcases h with rfl | rfl <;> omega
    · exact hm x h

/-- The key `decryptData` hands to AES-GCM decryption, read off the same
match structure as `decryptData` (crypto.ts lines 69–76): `none` when one
of the base64 decodes already failed, otherwise the key derived on line
73 — which receives `iv`, not the decoded salt. -/
def decryptKeyUsed {K : Type} (C : SubtleCrypto K)
    (encryptedData : EncryptedData) (password : String) : Option K :=
  match atobBytes encryptedData.salt, atobBytes encryptedData.iv,
      atobBytes encryptedData.encrypted with
  | some _salt, some iv, some _encrypted => some (deriveKey C password iv)
  | _, _, _ => none

/-- A concrete random stream for witnesses and counterexamples. -/
def rngSeq : Nat → Nat := fun n => n

/-- A concrete form input for witnesses. -/
def fdA : APIKeyFormData :=
  { name := "n", provider := .openai, apiKey := "sk-plain"
    model := none, endpoint := none, organization := none }

/-- `fdA` with only the `apiKey` field changed. -/
def fdB : APIKeyFormData :=
  { name := "n", provider := .openai, apiKey := "sk-other"
    model := none, endpoint := none, organization := none }

/-! ### Base64 round-trip lemmas -/

theorem charToSextet_sextetToChar :
    ∀ n < 64, charToSextet (sextetToChar n) = some n := by decide

theorem sextetToChar_not_ws : ∀ n < 64, isB64Ws (sextetToChar n) = false := by
  decide

theorem sextetToChar_ne_pad : ∀ n < 64, sextetToChar n ≠ '=' := by decide

theorem toSextets_lt_64 :
    ∀ b : List Nat, (∀ x ∈ b, x < 256) → ∀ s ∈ toSextets b, s < 64
  | [], _, s, hs => by simp [toSextets] at hs
  | [b0], h, s, hs => by
      have h0 := h b0 (by simp)
      simp [toSextets] at hs
      rcases hs with rfl | rfl <;> omega
  | [b0, b1], h, s, hs => by
      have h0 := h b0 (by simp)
      have h1 := h b1 (by simp)
      simp [toSextets] at hs
      rcases hs with rfl | rfl | rfl <;> omega
  | b0 :: b1 :: b2 :: rest, h, s, hs => by
      have h0 := h b0 (by simp)
      have h1 := h b1 (by simp)
      have h2 := h b2 (by simp)
      simp only [toSextets, List.mem_cons] at hs
      rcases hs with rfl | rfl | rfl | rfl | hmem
      · omega
      · omega
      · omega
      · omega
      · exact toSextets_lt_64 rest (fun x hx => h x (by simp [hx])) s hmem

theorem fromSextets_toSextets :
    ∀ b : List Nat, (∀ x ∈ b, x < 256) → fromSextets (toSextets b) = b
  | [], _ => rfl
  | [b0], h => by
      have h0 := h b0 (by simp)
      simp only [toSextets, fromSextets]
      congr 1
      omega
  | [b0, b1], h => by
      have h0 := h b0 (by simp)
      have h1 := h b1 (by simp)
      simp only [toSextets, fromSextets]
      congr 1
      · omega
      · congr 1
        omega
  | b0 :: b1 :: b2 :: rest, h => by
      have h0 := h b0 (by simp)
      have h1 := h b1 (by simp)
      have h2 := h b2 (by simp)
      have ih := fromSextets_toSextets rest (fun x hx => h x (by simp [hx]))
      simp only [toSextets, fromSextets, ih]
      congr 1
      · omega
      · congr 1
        · omega
        · congr 1
          omega

theorem toSextets_length :
    ∀ b : List Nat, (toSextets b).length = b.length + (b.length + 2) / 3
  | [] => by simp [toSextets]
  | [_] => by simp only [toSextets, List.length_cons, List.length_nil]
  | [_, _] => by simp only [toSextets, List.length_cons, List.length_nil]
  | _ :: _ :: _ :: rest => by
      have ih := toSextets_length rest
      simp only [toSextets, List.length_cons, ih]
      omega

theorem padLen_spec (n : Nat) :
    (n % 3 = 0 ∧ padLen n = 0) ∨ (n % 3 = 1 ∧ padLen n = 2) ∨
      (n % 3 = 2 ∧ padLen n = 1) := by
  have h : n % 3 = 0 ∨ n % 3 = 1 ∨ n % 3 = 2 := by omega
  rcases h with h | h | h
  · exact Or.inl ⟨h, by unfold padLen; rw [h]⟩
  · exact Or.inr (Or.inl ⟨h, by unfold padLen; rw [h]⟩)
  · exact Or.inr (Or.inr ⟨h, by unfold padLen; rw [h]⟩)

theorem mapM_sextetToChar :
    ∀ l : List Nat, (∀ x ∈ l, x < 64) →
      (l.map sextetToChar).mapM charToSextet = some l
  | [], _ => rfl
  | x :: xs, h => by
      have hx := charToSextet_sextetToChar x (h x (by simp))
      have ih := mapM_sextetToChar xs (fun y hy => h y (by simp [hy]))
      rw [List.map_cons, List.mapM_cons, hx, ih]
      rfl

theorem stripPad_append_replicate (S : List Char) (p : Nat) (hp : p ≤ 2)
    (hS : '=' ∉ S) : stripPad (S ++ List.replicate p '=') = S := by
  interval_cases p
  · simp only [List.replicate_zero, List.append_nil]
    unfold stripPad
    rw [if_neg, if_neg]
    · rintro ⟨-, hd⟩
      exact hS (List.mem_of_mem_drop (by rw [hd]; simp))
    · rintro ⟨-, hd⟩
      exact hS (List.mem_of_mem_drop (by rw [hd]; simp))
  · simp only [List.replicate_succ, List.replicate_zero]
    rcases S.eq_nil_or_concat with rfl | ⟨S', a, rfl⟩
    · decide
    · simp only [List.concat_eq_append] at hS ⊢
      unfold stripPad
      have hne : a ≠ '=' := by
        intro h
        exact hS (by simp [h])
      rw [if_neg, if_pos]
      · have h1 : (S' ++ [a] ++ ['=']).length - 1 = (S' ++ [a]).length := by
          simp
        rw [h1, List.take_left]
      · have h1 : (S' ++ [a] ++ ['=']).length - 1 = (S' ++ [a]).length := by
          simp
        refine ⟨by simp, ?_⟩
        rw [h1, List.drop_left]
      · rintro ⟨-, hd⟩
        have h2 : (S' ++ [a] ++ ['=']).length - 2 = S'.length := by simp
        rw [h2, List.append_assoc, List.drop_left] at hd
        simp at hd
        exact hne hd
  · simp only [List.replicate_succ, List.replicate_zero]
    unfold stripPad
    rw [if_pos]
    · have hl : (S ++ ['=', '=']).length - 2 = S.length := by simp
      rw [hl, List.take_left]
    · have hl : (S ++ ['=', '=']).length - 2 = S.length := by simp
      refine ⟨by simp, ?_⟩
      rw [hl, List.drop_left]

theorem padLen_le_two (n : Nat) : padLen n ≤ 2 := by
  rcases padLen_spec n with ⟨-, h⟩ | ⟨-, h⟩ | ⟨-, h⟩ <;> omega

theorem btoa_filter (b : List Nat) (h : ∀ x ∈ b, x < 256) :
    ((toSextets b).map sextetToChar ++
        List.replicate (padLen b.length) '=').filter (fun c => !isB64Ws c) =
      (toSextets b).map sextetToChar ++ List.replicate (padLen b.length) '=' := by
  rw [List.filter_eq_self]
  intro a ha
  rcases List.mem_append.mp ha with hm | hm
  · obtain ⟨s, hs, rfl⟩ := List.mem_map.mp hm
    have hws := sextetToChar_not_ws s (toSextets_lt_64 b h s hs)
    simp [hws]
  · have ha' : a = '=' := List.eq_of_mem_replicate hm
    subst ha'
    decide

/-- (C5 core) `atob` decoding inverts `btoa` encoding on byte lists. -/
theorem atobBytes_btoaBytes (b : List Nat) (h : ∀ x ∈ b, x < 256) :
    atobBytes (btoaBytes b) = some b := by
  have hS64 := toSextets_lt_64 b h
  have hpad : padLen b.length = padLen b.length := rfl
  have hlen := toSextets_length b
  have htl : (btoaBytes b).toList =
      (toSextets b).map sextetToChar ++ List.replicate (padLen b.length) '=' := rfl
  unfold atobBytes
  rw [htl, btoa_filter b h]
  unfold atobStrip
  rw [if_pos]
  · rw [stripPad_append_replicate _ _ (padLen_le_two b.length)]
    · unfold atobCore
      rw [if_neg]
      · rw [mapM_sextetToChar _ hS64, Option.map_some']
        rw [fromSextets_toSextets b h]
      · simp only [List.length_map, hlen]
        omega
    · intro hmem
      obtain ⟨s, hs, hcontra⟩ := List.mem_map.mp hmem
      exact sextetToChar_ne_pad s (hS64 s hs) hcontra
  · simp only [List.length_append, List.length_map, List.length_replicate, hlen]
    rcases padLen_spec b.length with ⟨h1, h2⟩ | ⟨h1, h2⟩ | ⟨h1, h2⟩ <;>
      rw [h2] <;> omega

/-! ### Byte-range and length lemmas -/

theorem getRandomValues_length (rng : Nat → Nat) (start n : Nat) :
    (getRandomValues rng start n).length = n := by
  simp [getRandomValues]

theorem getRandomValues_lt_256 (rng : Nat → Nat) (start n : Nat) :
    ∀ x ∈ getRandomValues rng start n, x < 256 := by
  intro x hx
  simp only [getRandomValues, List.mem_map] at hx
  obtain ⟨i, -, rfl⟩ := hx
  exact Nat.mod_lt _ (by norm_num)

theorem char_toNat_lt (c : Char) : c.toNat < 1114112 := by
  rcases c.valid with h | ⟨-, h2⟩
  · exact Nat.lt_trans h (by norm_num)
  · exact h2

theorem utf8EncodeChar_lt_256 (c : Char) : ∀ x ∈ utf8EncodeChar c, x < 256 := by
  intro x hx
  have hc := char_toNat_lt c
  simp only [utf8EncodeChar] at hx
  split_ifs at hx with h1 h2 h3
  · simp only [List.mem_cons, List.not_mem_nil, or_false] at hx
    omega
  · simp only [List.mem_cons, List.not_mem_nil, or_false] at hx
    rcases hx with rfl | rfl <;> omega
  · simp only [List.mem_cons, List.not_mem_nil, or_false] at hx
    rcases hx with rfl | rfl | rfl <;> omega
  · simp only [List.mem_cons, List.not_mem_nil, or_false] at hx
    rcases hx with rfl | rfl | rfl | rfl <;> omega

theorem utf8Encode_lt_256 (s : String) : ∀ x ∈ utf8Encode s, x < 256 := by
  intro x hx
  simp only [utf8Encode, List.mem_flatten, List.mem_map] at hx
  obtain ⟨l, ⟨c, -, rfl⟩, hxl⟩ := hx
  exact utf8EncodeChar_lt_256 c x hxl

/-- The lowercase hexadecimal digits. -/
def hexDigits : List Char := "0123456789abcdef".toList

set_option maxRecDepth 10000 in
theorem padStart2_natToHex_spec :
    ∀ b < 256, (padStart2 (natToHex b)).length = 2 ∧
      ∀ c ∈ padStart2 (natToHex b), c ∈ hexDigits := by decide

/-! ### Unfolding lemmas for `encryptData` -/

theorem encryptData_encrypted {K : Type} (C : SubtleCrypto K)
    (rng : Nat → Nat) (data password : String) :
    (encryptData C rng data password).encrypted =
      btoaBytes (C.gcmEncrypt (deriveKey C password (getRandomValues rng 0 16))
        (getRandomValues rng 16 12) (utf8Encode data)) := rfl

theorem encryptData_iv {K : Type} (C : SubtleCrypto K) (rng : Nat → Nat)
    (data password : String) :
    (encryptData C rng data password).iv =
      btoaBytes (getRandomValues rng 16 12) := rfl

theorem encryptData_salt {K : Type} (C : SubtleCrypto K) (rng : Nat → Nat)
    (data password : String) :
    (encryptData C rng data password).salt =
      btoaBytes (getRandomValues rng 0 16) := rfl

/-! ## Claim theorems -/

/-- C4: for every plaintext and password, `encryptData` encrypts the
UTF-8 encoding of the plaintext with AES-GCM under a 256-bit key derived
from the password by PBKDF2 (SHA-256, 100000 iterations) over a freshly
generated 16-byte random salt, with a freshly generated 12-byte random
IV, and base64-encodes the ciphertext, IV and salt. -/
theorem encryptData_algorithm {K : Type} (C : SubtleCrypto K)
    (rng : Nat → Nat) (data password : String) :
    encryptData C rng data password =
      { encrypted := btoaBytes (C.gcmEncrypt
            (C.pbkdf2Sha256 (utf8Encode password) (getRandomValues rng 0 16)
              100000 256)
            (getRandomValues rng 16 12) (utf8Encode data))
        iv := btoaBytes (getRandomValues rng 16 12)
        salt := btoaBytes (getRandomValues rng 0 16) } := rfl

/-- C7: `decryptData` is deterministic and self-contained — its outcome
depends on nothing but its two arguments, so equal inputs give equal
outcomes. -/
theorem decryptData_deterministic {K : Type} (C : SubtleCrypto K)
    (e₁ e₂ : EncryptedData) (p₁ p₂ : String) (he : e₁ = e₂) (hp : p₁ = p₂) :
    decryptData C e₁ p₁ = decryptData C e₂ p₂ := by
  rw [he, hp]

theorem decryptData_deterministic_witness :
    (encryptData toyCrypto rngSeq "x" "y" = encryptData toyCrypto rngSeq "x" "y") ∧
      ("y" : String) = "y" ∧
      decryptData toyCrypto (encryptData toyCrypto rngSeq "x" "y") "y" =
        decryptData toyCrypto (encryptData toyCrypto rngSeq "x" "y") "y" :=
  ⟨rfl, rfl, decryptData_deterministic toyCrypto _ _ _ _ rfl rfl⟩

/-- C9: the `iv` field of every `encryptData` output decodes to exactly
12 bytes and the `salt` field decodes to exactly 16 bytes. -/
theorem encryptData_iv_salt_lengths {K : Type} (C : SubtleCrypto K)
    (rng : Nat → Nat) (data password : String) :
    (∃ ivBytes, atobBytes (encryptData C rng data password).iv = some ivBytes ∧
        ivBytes.length = 12) ∧
      (∃ saltBytes,
        atobBytes (encryptData C rng data password).salt = some saltBytes ∧
          saltBytes.length = 16) := by
  refine ⟨⟨getRandomValues rng 16 12, ?_, ?_⟩,
    ⟨getRandomValues rng 0 16, ?_, ?_⟩⟩
  · rw [encryptData_iv]
    exact atobBytes_btoaBytes _ (getRandomValues_lt_256 rng 16 12)
  · exact getRandomValues_length rng 16 12
  · rw [encryptData_salt]
    exact atobBytes_btoaBytes _ (getRandomValues_lt_256 rng 0 16)
  · exact getRandomValues_length rng 0 16

/-- C10: `generateSecureId` always returns a string of exactly 32
characters, each a lowercase hexadecimal digit. -/
theorem generateSecureId_shape (rng : Nat → Nat) :
    (generateSecureId rng).length = 32 ∧
      ∀ c ∈ (generateSecureId rng).toList, c ∈ hexDigits := by
  have key : ∀ l ∈ (getRandomValues rng 0 16).map
      (fun byte => padStart2 (natToHex byte)),
      l.length = 2 ∧ ∀ c ∈ l, c ∈ hexDigits := by
    intro l hl
    obtain ⟨b, hb, rfl⟩ := List.mem_map.mp hl
    exact padStart2_natToHex_spec b (getRandomValues_lt_256 rng 0 16 b hb)
  constructor
  · show (((getRandomValues rng 0 16).map
        (fun byte => padStart2 (natToHex byte))).flatten).length = 32
    rw [List.length_flatten]
    have hrep : ((getRandomValues rng 0 16).map
          (fun byte => padStart2 (natToHex byte))).map List.length =
        List.replicate (((getRandomValues rng 0 16).map
          (fun byte => padStart2 (natToHex byte))).map List.length).length 2 := by
      apply List.eq_replicate_of_mem
      intro x hx
      obtain ⟨l, hl, rfl⟩ := List.mem_map.mp hx
      exact (key l hl).1
    rw [hrep, List.sum_replicate]
    simp [getRandomValues_length]
  · intro c hc
    have hc' : c ∈ ((getRandomValues rng 0 16).map
        (fun byte => padStart2 (natToHex byte))).flatten := hc
    obtain ⟨l, hl, hcl⟩ := List.mem_flatten.mp hc'
    exact (key l hl).2 c hcl

/-- C1 (refuted by the code): the encrypt/decrypt round trip does not
return the plaintext — `decryptData` throws on the untampered output of
`encryptData` under the same password, because line 73 of `crypto.ts`
derives the decryption key from the IV instead of the decoded salt.
Concrete evaluation at `data = "my-secret"`, `password = "hunter2"`. -/
theorem roundtrip_fails :
    decryptData toyCrypto (encryptData toyCrypto rngSeq "my-secret" "hunter2")
      "hunter2" = Except.error decryptFailureMessage := rfl

/-- C2 (refuted by the code): at a concrete well-formed input, the AES
key `decryptData` uses is `deriveKey password iv` — derived from the
decoded IV — and it differs from `deriveKey password salt`, the key the
claim prescribes (the decoded salt is 16 bytes, the IV 12). -/
theorem decrypt_key_derived_from_iv :
    decryptKeyUsed toyCrypto (encryptData toyCrypto rngSeq "k" "pw") "pw" =
        some (deriveKey toyCrypto "pw" (getRandomValues rngSeq 16 12)) ∧
      deriveKey toyCrypto "pw" (getRandomValues rngSeq 16 12) ≠
        deriveKey toyCrypto "pw" (getRandomValues rngSeq 0 16) := by decide

/-- C3 (refuted by the code): `decryptData` throws its error even when
the password is correct, the ciphertext/IV/salt are untampered and the
base64 is well-formed — a case outside every failure cause the claim
lists — again because the key is derived from the IV. Concrete
evaluation at `data = "another secret"`, `password = "pw2"`. -/
theorem decrypt_throws_without_listed_cause :
    decryptData toyCrypto
        (encryptData toyCrypto rngSeq "another secret" "pw2") "pw2" =
      Except.error decryptFailureMessage := rfl

/-- C5: the byte→base64 encoding used by `encryptData` and the
base64→byte decoding used by `decryptData` are mutually inverse on byte
lists, so the `encrypted`, `iv` and `salt` fields of an `EncryptedData`
produced by `encryptData` decode back to exactly the ciphertext, IV and
salt bytes that `encryptData` produced. -/
theorem base64_mutually_inverse {K : Type} (C : SubtleCrypto K)
    (rng : Nat → Nat) (data password : String) (b : List Nat)
    (hb : ∀ x ∈ b, x < 256) :
    atobBytes (btoaBytes b) = some b ∧
      atobBytes (encryptData C rng data password).encrypted =
        some (C.gcmEncrypt (deriveKey C password (getRandomValues rng 0 16))
          (getRandomValues rng 16 12) (utf8Encode data)) ∧
      atobBytes (encryptData C rng data password).iv =
        some (getRandomValues rng 16 12) ∧
      atobBytes (encryptData C rng data password).salt =
        some (getRandomValues rng 0 16) := by
  refine ⟨atobBytes_btoaBytes b hb, ?_, ?_, ?_⟩
  · rw [encryptData_encrypted]
    exact atobBytes_btoaBytes _ (C.gcm_bytes _ _ _ (utf8Encode_lt_256 data))
  · rw [encryptData_iv]
    exact atobBytes_btoaBytes _ (getRandomValues_lt_256 rng 16 12)
  · rw [encryptData_salt]
    exact atobBytes_btoaBytes _ (getRandomValues_lt_256 rng 0 16)

theorem base64_mutually_inverse_witness :
    (∀ x ∈ [0, 255, 77], x < 256) ∧
      (atobBytes (btoaBytes [0, 255, 77]) = some [0, 255, 77] ∧
        atobBytes (encryptData toyCrypto rngSeq "a" "b").encrypted =
          some (toyCrypto.gcmEncrypt
            (deriveKey toyCrypto "b" (getRandomValues rngSeq 0 16))
            (getRandomValues rngSeq 16 12) (utf8Encode "a")) ∧
        atobBytes (encryptData toyCrypto rngSeq "a" "b").iv =
          some (getRandomValues rngSeq 16 12) ∧
        atobBytes (encryptData toyCrypto rngSeq "a" "b").salt =
          some (getRandomValues rngSeq 0 16)) :=
  ⟨by decide,
    base64_mutually_inverse toyCrypto rngSeq "a" "b" [0, 255, 77] (by decide)⟩

/-- C6: the record `addAPIKey` appends stores the API key only in
encrypted form — its `encryptedKey` field is `encryptData formData.apiKey
password`, the stored list becomes the old list with that record
appended, and when only `formData.apiKey` changes every other field of
the record is unchanged, so the plaintext key reaches no field but
`encryptedKey` (and there only encrypted). -/
theorem addAPIKey_stores_only_encrypted {K : Type} (C : SubtleCrypto K)
    (rngEnc rngId : Nat → Nat) (apiKeys : List APIKey)
    (fd fd' : APIKeyFormData) (password now : String)
    (hname : fd'.name = fd.name) (hprov : fd'.provider = fd.provider)
    (hmodel : fd'.model = fd.model) (hend : fd'.endpoint = fd.endpoint)
    (horg : fd'.organization = fd.organization) :
    ((addAPIKey C rngEnc rngId apiKeys fd password now).2.encryptedKey =
        encryptData C rngEnc fd.apiKey password) ∧
      ((addAPIKey C rngEnc rngId apiKeys fd password now).1 =
        apiKeys ++ [(addAPIKey C rngEnc rngId apiKeys fd password now).2]) ∧
      ((addAPIKey C rngEnc rngId apiKeys fd' password now).2 =
        { (addAPIKey C rngEnc rngId apiKeys fd password now).2 with
            encryptedKey := encryptData C rngEnc fd'.apiKey password }) := by
  refine ⟨rfl, rfl, ?_⟩
  simp only [addAPIKey]
  rw [hname, hprov, hmodel, hend, horg]

theorem addAPIKey_stores_only_encrypted_witness :
    (fdB.name = fdA.name ∧ fdB.provider = fdA.provider ∧
        fdB.model = fdA.model ∧ fdB.endpoint = fdA.endpoint ∧
        fdB.organization = fdA.organization) ∧
      (((addAPIKey toyCrypto rngSeq rngSeq [] fdA "pw" "t").2.encryptedKey =
          encryptData toyCrypto rngSeq fdA.apiKey "pw") ∧
        ((addAPIKey toyCrypto rngSeq rngSeq [] fdA "pw" "t").1 =
          [] ++ [(addAPIKey toyCrypto rngSeq rngSeq [] fdA "pw" "t").2]) ∧
        ((addAPIKey toyCrypto rngSeq rngSeq [] fdB "pw" "t").2 =
          { (addAPIKey toyCrypto rngSeq rngSeq [] fdA "pw" "t").2 with
              encryptedKey := encryptData toyCrypto rngSeq fdB.apiKey "pw" })) :=
  ⟨⟨rfl, rfl, rfl, rfl, rfl⟩,
    addAPIKey_stores_only_encrypted toyCrypto rngSeq rngSeq [] fdA fdB "pw" "t"
      rfl rfl rfl rfl rfl⟩

/-- C8: for every key id and password, when the id is not found or
`decryptData` fails, `decryptAPIKey` returns `none` (propagating no
exception) and the stored list is unchanged — no `usageCount` or
`lastUsed` is modified; the list is rewritten only on success. -/
theorem decryptAPIKey_fail_atomic {K : Type} (C : SubtleCrypto K)
    (apiKeys : List APIKey) (keyId password now : String)
    (h : ∀ key, apiKeys.find? (fun k => k.id == keyId) = some key →
      ∀ s, decryptData C key.encryptedKey password ≠ Except.ok s) :
    decryptAPIKey C apiKeys keyId password now = (none, apiKeys) := by
  unfold decryptAPIKey
  split
  · rfl
  · rename_i key hf
    split
    · rfl
    · rename_i s hd
      exact absurd hd (h key hf s)

theorem decryptAPIKey_fail_atomic_witness :
    (∀ key, (([] : List APIKey).find? (fun k => k.id == "missing")) = some key →
        ∀ s, decryptData toyCrypto key.encryptedKey "pw" ≠ Except.ok s) ∧
      decryptAPIKey toyCrypto [] "missing" "pw" "t" = (none, []) :=
  ⟨by simp, decryptAPIKey_fail_atomic toyCrypto [] "missing" "pw" "t" (by simp)⟩

end AppleVisionQuest
